import Mathlib

/-!
Verification of the pay-cycle period calculation and budget derivation engine
of the JobApp financial organizer (src/MainApp.tsx).

The embedding models JavaScript `Date` values as proleptic-Gregorian civil
dates (`CivilDate`) together with millisecond instants (`Int`).  The local
timezone is identified with UTC and DST is absent, so a calendar date at
midnight corresponds to the instant `86400000 * toDays d`.  JS `setDate`,
`setMonth` and `setFullYear` mutations are modelled by `addDays`, `addMonth`
and `addYear`, including JS's field-overflow normalization (e.g. Jan 31 plus
one month normalizes Feb 31 to Mar 2/3).  Machine numbers (amounts, income)
are modelled as exact integers.
-/

/-- JS `Date` leap-year rule (proleptic Gregorian). -/
def isLeap (y : Int) : Bool :=
  (y % 4 == 0 && y % 100 != 0) || y % 400 == 0

/-- Number of days in month `m` (1..12) of year `y`; out-of-range months map
to 31 (never reached on valid dates). -/
def monthLen (y : Int) : Nat → Nat
  | 1 => 31
  | 2 => if isLeap y then 29 else 28
  | 3 => 31
  | 4 => 30
  | 5 => 31
  | 6 => 30
  | 7 => 31
  | 8 => 31
  | 9 => 30
  | 10 => 31
  | 11 => 30
  | 12 => 31
  | _ => 31

/-- Cumulative days before month `m` in a non-leap year (`m = 13` closes the
year at 365). -/
def cumBase : Nat → Nat
  | 1 => 0
  | 2 => 31
  | 3 => 59
  | 4 => 90
  | 5 => 120
  | 6 => 151
  | 7 => 181
  | 8 => 212
  | 9 => 243
  | 10 => 273
  | 11 => 304
  | 12 => 334
  | _ => 365

/-- Cumulative days before month `m` of year `y`. -/
def cumDays (y : Int) (m : Nat) : Nat :=
  cumBase m + (if 3 ≤ m ∧ isLeap y = true then 1 else 0)

/-- Days from the epoch (0000-01-01) to the first day of year `y`
(floor-division leap count, valid for all integer years). -/
def daysBeforeYear (y : Int) : Int :=
  365 * y + ((y + 3) / 4 - (y + 99) / 100 + (y + 399) / 400)

/-- A civil calendar date, as decoded from a JS `Date`
(`getFullYear`/`getMonth`+1/`getDate`). -/
structure CivilDate where
  year : Int
  month : Nat
  day : Nat
deriving DecidableEq, Repr

/-- The date is a real calendar date. -/
def CivilDate.IsValid (t : CivilDate) : Prop :=
  1 ≤ t.month ∧ t.month ≤ 12 ∧ 1 ≤ t.day ∧ t.day ≤ monthLen t.year t.month

instance (t : CivilDate) : Decidable t.IsValid := by
  unfold CivilDate.IsValid; infer_instance

/-- Day number of a civil date (linear in the day field, so it also measures
field-overflowed triples the way JS normalization does). -/
def toDays (t : CivilDate) : Int :=
  daysBeforeYear t.year + (cumDays t.year t.month : Int) + (t.day : Int) - 1

/-- Milliseconds per day. -/
def msPerDay : Int := 86400000

/-- Instant (ms) of the date's local midnight, local time taken as UTC. -/
def msOf (t : CivilDate) : Int := msPerDay * toDays t

/-- Instant (ms) of the date at `T12:00:00`, as used for expense date keys. -/
def middayMs (t : CivilDate) : Int := msOf t + 43200000

/-- Successor day with JS normalization (month/year carry). -/
def nextDay (t : CivilDate) : CivilDate :=
  if t.day < monthLen t.year t.month then ⟨t.year, t.month, t.day + 1⟩
  else if t.month < 12 then ⟨t.year, t.month + 1, 1⟩
  else ⟨t.year + 1, 1, 1⟩

/-- `setDate(getDate() + n)`: advance `n` days. -/
def addDays : Nat → CivilDate → CivilDate
  | 0, t => t
  | n + 1, t => nextDay (addDays n t)

/-- `setMonth(getMonth() + 1)`: advance one calendar month with JS overflow
(day-of-month spills into the following month, e.g. Feb 31 ↦ Mar 2/3). -/
def addMonth (t : CivilDate) : CivilDate :=
  if t.month = 12 then
    if t.day ≤ monthLen (t.year + 1) 1 then ⟨t.year + 1, 1, t.day⟩
    else ⟨t.year + 1, 2, t.day - monthLen (t.year + 1) 1⟩
  else
    if t.day ≤ monthLen t.year (t.month + 1) then ⟨t.year, t.month + 1, t.day⟩
    else if t.month + 1 = 12 then ⟨t.year + 1, 1, t.day - monthLen t.year (t.month + 1)⟩
    else ⟨t.year, t.month + 2, t.day - monthLen t.year (t.month + 1)⟩

/-- `setFullYear(getFullYear() + 1)`: advance one calendar year with JS
overflow (Feb 29 of a leap year ↦ Mar 1). -/
def addYear (t : CivilDate) : CivilDate :=
  if t.day ≤ monthLen (t.year + 1) t.month then ⟨t.year + 1, t.month, t.day⟩
  else if t.month = 12 then ⟨t.year + 2, 1, t.day - monthLen (t.year + 1) t.month⟩
  else ⟨t.year + 1, t.month + 1, t.day - monthLen (t.year + 1) t.month⟩

/-- Pay-cycle frequency (`'semanal' | 'quincenal' | 'mensual' | 'anual'`). -/
inductive PayCycleFrequency where
  | semanal
  | quincenal
  | mensual
  | anual
deriving DecidableEq, Repr

/-- The single-step date advance of the period resolver's `switch` (and the
identical `switch` of the future-expense materializer). -/
def advance : PayCycleFrequency → CivilDate → CivilDate
  | .semanal, t => addDays 7 t
  | .quincenal, t => addDays 14 t
  | .mensual, t => addMonth t
  | .anual, t => addYear t

/-! ## Data model (src/types referenced from MainApp.tsx) -/

/-- A spending category of the registry (`INITIAL_CATEGORIES` entry). -/
structure Category where
  id : String
  name : String
  icon : String
  color : String
deriving DecidableEq, Repr

/-- A logged daily expense. -/
structure DailyExpense where
  id : String
  note : String
  amount : Int
  categoryId : String
deriving DecidableEq, Repr

/-- Frequency of a future expense (`Frequency | 'una-vez'`). -/
inductive FutureFrequency where
  | semanal
  | quincenal
  | mensual
  | anual
  | unaVez
deriving DecidableEq, Repr

/-- A planned (recurring or one-off) future expense.  Date strings are
modelled as the civil dates they parse to. -/
structure FutureExpense where
  id : String
  note : String
  amount : Int
  categoryId : String
  startDate : CivilDate
  endDate : Option CivilDate
  frequency : FutureFrequency
deriving DecidableEq, Repr

/-- A pay-cycle configuration. -/
structure PayCycleConfig where
  startDate : CivilDate
  frequency : PayCycleFrequency
  income : Int
deriving DecidableEq, Repr

/-- A named cycle profile. -/
structure CycleProfile where
  id : String
  name : String
  config : PayCycleConfig
deriving DecidableEq, Repr

/-- A derived or saved budget record; `categories` pairs each registry
category with its stamped amount. -/
structure BudgetRecord where
  id : String
  name : String
  totalIncome : Int
  categories : List (Category × Int)
  dateSaved : String
  frequency : PayCycleFrequency
deriving DecidableEq, Repr

/-! ## Period Resolver (MainApp.tsx lines 327-345)

The `while (nextCycleStart <= now)` loop advances at least one day per
iteration, so running it with any fuel large enough to carry `start` past
`now` reproduces it exactly; `loopFuel` supplies such a fuel. -/

/-- The resolver loop: `while (nextCycleStart <= now) { currentCycleStart =
nextCycleStart; nextCycleStart = advance(nextCycleStart) }`, fuelled. -/
def resolveLoop (f : PayCycleFrequency) (now : Int) :
    Nat → CivilDate → CivilDate → CivilDate × CivilDate
  | 0, cur, next => (cur, next)
  | fuel + 1, cur, next =>
      if msOf next ≤ now then resolveLoop f now fuel next (advance f next)
      else (cur, next)

/-- Enough iterations for any loop bounded by instant `bound` that advances
at least one day per step starting from `start`. -/
def loopFuel (bound : Int) (start : CivilDate) : Nat :=
  (bound + msPerDay - msOf start).toNat / 86400000 + 1

/-- `resolveCurrentPeriod(config, now)`: the period resolution of the
`currentPeriodSpending` memo; returns (currentCycleStart, nextCycleStart). -/
def resolveCurrentPeriod (cfg : PayCycleConfig) (now : Int) : CivilDate × CivilDate :=
  resolveLoop cfg.frequency now (loopFuel now cfg.startDate) cfg.startDate cfg.startDate

/-- `periodStartDate` of the memo. -/
def periodStartDate (cfg : PayCycleConfig) (now : Int) : CivilDate :=
  (resolveCurrentPeriod cfg now).1

/-- `periodEndDate` of the memo, as an instant:
`new Date(nextCycleStart.getTime() - 1)`. -/
def periodEndMs (cfg : PayCycleConfig) (now : Int) : Int :=
  msOf (resolveCurrentPeriod cfg now).2 - 1


/-! ## Expense Aggregator (MainApp.tsx lines 347-366)

The per-cycle daily-expense mapping is an association list of date keys and
expense lists; canonical `YYYY-MM-DD` keys are identified with the civil
dates they denote. -/

/-- Per-cycle daily-expense mapping. -/
abbrev DailyMap := List (CivilDate × List DailyExpense)

/-- `entry = spentByCategory.get(exp.categoryId); if (entry) entry.amount += exp.amount`:
update the first matching category total; unknown category ids fall through
silently. -/
def bumpCategory : List (Category × Int) → String → Int → List (Category × Int)
  | [], _, _ => []
  | (c, a) :: t, cid, amt =>
      if c.id = cid then (c, a + amt) :: t else (c, a) :: bumpCategory t cid amt

/-- The aggregation loop of the `currentPeriodSpending` memo: totals
initialized to zero for every registry category, then every date entry whose
midday instant lies in `[ps, pe]` adds its expenses into the totals. -/
def aggregateSpending (cats : List Category) (daily : DailyMap) (ps pe : Int) :
    List (Category × Int) :=
  daily.foldl
    (fun acc p =>
      if ps ≤ middayMs p.1 ∧ middayMs p.1 ≤ pe then
        p.2.foldl (fun a e => bumpCategory a e.categoryId e.amount) acc
      else acc)
    (cats.map (fun c => (c, 0)))

/-- `currentPeriodSpending`: the aggregated totals filtered for display to
categories with positive amount. -/
def currentPeriodSpending (cats : List Category) (daily : DailyMap)
    (cfg : PayCycleConfig) (now : Int) : List (Category × Int) :=
  (aggregateSpending cats daily (msOf (resolveCurrentPeriod cfg now).1)
      (msOf (resolveCurrentPeriod cfg now).2 - 1)).filter (fun p => p.2 > 0)

/-- Per-category sum of a flat expense list (mathematical form used to state
the aggregation claims). -/
def catSum (exps : List DailyExpense) (cid : String) : Int :=
  ((exps.filter (fun e => e.categoryId = cid)).map (fun e => e.amount)).sum

/-- A category's aggregated total over the period (mathematical form used to
state the aggregation claims). -/
def periodTotal (daily : DailyMap) (ps pe : Int) (cid : String) : Int :=
  (daily.map (fun p =>
    if ps ≤ middayMs p.1 ∧ middayMs p.1 ≤ pe then catSum p.2 cid else 0)).sum

/-! ## Budget Synthesizer, live mode (MainApp.tsx lines 371-393) -/

/-- `budgetCategories` of the live-budget effect: each registry category
looked up in the (display-filtered) `currentPeriodSpending`, defaulting
to 0. -/
def liveBudgetCategories (cats : List Category) (spending : List (Category × Int)) :
    List (Category × Int) :=
  cats.map (fun cat =>
    match spending.find? (fun item => item.1.id = cat.id) with
    | some item => (cat, item.2)
    | none => (cat, 0))

/-- The live `BudgetRecord` built by the effect (`dateSaved` is the
`toISOString()` string of the build instant, passed through). -/
def mkLiveBudget (cats : List Category) (cfg : PayCycleConfig) (profileName : String)
    (spending : List (Category × Int)) (dateSaved : String) : BudgetRecord :=
  { id := "live-cycle-budget"
    name := "Presupuesto de Ciclo Actual (" ++ profileName ++ ")"
    totalIncome := cfg.income
    categories := liveBudgetCategories cats spending
    dateSaved := dateSaved
    frequency := cfg.frequency }

/-- Live budget from the raw inputs of the dependency chain. -/
def liveBudgetOf (cats : List Category) (cfg : PayCycleConfig) (profileName : String)
    (daily : DailyMap) (now : Int) (dateSaved : String) : BudgetRecord :=
  mkLiveBudget cats cfg profileName (currentPeriodSpending cats daily cfg now) dateSaved

/-! ## Future-Expense Materializer (MainApp.tsx lines 460-479) -/

/-- The `occurrenceDate <= feEndDate` guard (`true` when `endDate` is null). -/
def endOk (endD : Option CivilDate) (occ : CivilDate) : Bool :=
  match endD with
  | none => true
  | some e => decide (msOf occ ≤ msOf e)

/-- One step of the materializer's frequency `switch` (`'una-vez'` never
reaches the switch: the loop breaks first). -/
def stepF : FutureFrequency → CivilDate → CivilDate
  | .semanal, t => addDays 7 t
  | .quincenal, t => addDays 14 t
  | .mensual, t => addMonth t
  | .anual, t => addYear t
  | .unaVez, t => t

/-- Occurrence dates emitted by the materializer loop of
`handleConfirmForceCreate` over the window `[ws, we]` (instants), fuelled;
the loop advances at least one day per iteration, so any fuel that carries
the start past `we` reproduces it exactly. -/
def materializeDates (f : FutureFrequency) (endD : Option CivilDate) (ws we : Int) :
    Nat → CivilDate → List CivilDate
  | 0, _ => []
  | fuel + 1, occ =>
      if msOf occ ≤ we ∧ endOk endD occ = true then
        (if ws ≤ msOf occ then [occ] else []) ++
        (if f = .unaVez then [] else materializeDates f endD ws we fuel (stepF f occ))
      else []

/-- The `i`-th occurrence candidate reached from `start` by whole frequency
steps. -/
def occSeq (f : FutureFrequency) : CivilDate → Nat → CivilDate
  | t, 0 => t
  | t, i + 1 => occSeq f (stepF f t) i

/-- Two-digit padding of `toString`, as `padStart(2, '0')`. -/
def pad2 (n : Nat) : String :=
  if n < 10 then "0" ++ toString n else toString n

/-- The `dateKey` built by the materializer:
`getFullYear()-MM-DD` with 2-padded month and day. -/
def formatDateKey (t : CivilDate) : String :=
  toString t.year ++ "-" ++ pad2 t.month ++ "-" ++ pad2 t.day

/-- The synthetic `DailyExpense` emitted for occurrence `occ` of `fe`. -/
def synthExpense (fe : FutureExpense) (occ : CivilDate) : DailyExpense :=
  { id := "future-" ++ fe.id ++ "-" ++ formatDateKey occ
    note := fe.note
    amount := fe.amount
    categoryId := fe.categoryId }

/-- `allExpensesInCycle[dateKey] = [...(allExpensesInCycle[dateKey] || []), exp]`:
append to an existing date entry in place, or add a new entry at the end. -/
def pushExpense : DailyMap → CivilDate → DailyExpense → DailyMap
  | [], d, e => [(d, [e])]
  | (k, v) :: t, d, e =>
      if k = d then (k, v ++ [e]) :: t else (k, v) :: pushExpense t d e

/-- Merge one future expense's materialized occurrences into the map (the
source interleaves the pushes with the loop; folding the emitted dates in
emission order performs the identical sequence of pushes). -/
def mergeFuture (fe : FutureExpense) (ws we : Int) (acc : DailyMap) : DailyMap :=
  (materializeDates fe.frequency fe.endDate ws we (loopFuel we fe.startDate)
      fe.startDate).foldl (fun m d => pushExpense m d (synthExpense fe d)) acc

/-- `allExpensesInCycle` of `handleConfirmForceCreate`: the real daily
expenses (a fresh copy) merged with every future expense's occurrences. -/
def mergedExpensesOf (daily : DailyMap) (futures : List FutureExpense)
    (ws we : Int) : DailyMap :=
  futures.foldl (fun acc fe => mergeFuture fe ws we acc) daily

/-! ## Budget Synthesizer, force-create mode (MainApp.tsx lines 481-511) -/

/-- `categoryAmounts.set(cid, (categoryAmounts.get(cid) || 0) + amount)` on
an association list (JS `Map`: update in place or insert at the end). -/
def addAmount : List (String × Int) → String → Int → List (String × Int)
  | [], cid, amt => [(cid, amt)]
  | (k, v) :: t, cid, amt =>
      if k = cid then (k, v + amt) :: t else (k, v) :: addAmount t cid amt

/-- `Object.values(allExpensesInCycle).flat()`. -/
def flatExpenses : DailyMap → List DailyExpense
  | [] => []
  | (_, v) :: t => v ++ flatExpenses t

/-- The `categoryAmounts` map of `handleConfirmForceCreate`. -/
def categoryAmountsOf (m : DailyMap) : List (String × Int) :=
  (flatExpenses m).foldl (fun acc e => addAmount acc e.categoryId e.amount) []

/-- `categoryAmounts.get(cid) || 0`. -/
def getOr0 (acc : List (String × Int)) (cid : String) : Int :=
  match acc.find? (fun p => p.1 = cid) with
  | some p => p.2
  | none => 0

/-- `newCategories`: registry categories stamped with the merged flat totals. -/
def newCategoriesOf (cats : List Category) (m : DailyMap) : List (Category × Int) :=
  cats.map (fun c => (c, getOr0 (categoryAmountsOf m) c.id))

/-- `totalAllocated`: sum of amounts over all non-savings categories. -/
def totalAllocatedOf (nc : List (Category × Int)) : Int :=
  ((nc.filter (fun p => ¬ p.1.id = "savings")).map (fun p => p.2)).sum

/-- `newCategories[savingsCategoryIndex].amount = savings`, guarded by
`savingsCategoryIndex > -1` (overwrite the first savings entry, no-op when
absent). -/
def overwriteSavings : List (Category × Int) → Int → List (Category × Int)
  | [], _ => []
  | (c, a) :: t, v =>
      if c.id = "savings" then (c, v) :: t else (c, a) :: overwriteSavings t v

/-- The category list of a force-created budget, with the savings residual
`Math.max(0, income - totalAllocated)` applied. -/
def forceCreateCategories (cats : List Category) (m : DailyMap) (income : Int) :
    List (Category × Int) :=
  overwriteSavings (newCategoriesOf cats m)
    (max 0 (income - totalAllocatedOf (newCategoriesOf cats m)))

/-- First stamped amount of the category with id `cid` (0 if absent). -/
def amountOf (l : List (Category × Int)) (cid : String) : Int :=
  match l.find? (fun p => p.1.id = cid) with
  | some p => p.2
  | none => 0

/-! ## Application state and handlers -/

/-- The persisted application state manipulated by the handlers. -/
structure AppState where
  savedBudgets : List BudgetRecord
  globalSavings : Int
  cycleProfiles : List CycleProfile
  activeCycleId : Option String
  allDailyExpenses : List (String × DailyMap)
  allFutureExpenses : List (String × List FutureExpense)
deriving DecidableEq, Repr

/-- `cycleProfiles.find(p => p.id === activeCycleId)`. -/
def activeCycleProfileOf (s : AppState) : Option CycleProfile :=
  match s.activeCycleId with
  | none => none
  | some cid => s.cycleProfiles.find? (fun p => p.id = cid)

/-- `activeCycleProfile?.config || null`. -/
def activeCycleConfigOf (s : AppState) : Option PayCycleConfig :=
  (activeCycleProfileOf s).map (fun p => p.config)

/-- `currentDailyExpenses`: the active cycle's daily map (`{}` otherwise). -/
def currentDailyExpensesOf (s : AppState) : DailyMap :=
  match s.activeCycleId with
  | none => []
  | some cid =>
      match s.allDailyExpenses.find? (fun p => p.1 = cid) with
      | some p => p.2
      | none => []

/-- `currentFutureExpenses`: the active cycle's future list (`[]` otherwise). -/
def currentFutureExpensesOf (s : AppState) : List FutureExpense :=
  match s.activeCycleId with
  | none => []
  | some cid =>
      match s.allFutureExpenses.find? (fun p => p.1 = cid) with
      | some p => p.2
      | none => []

/-- `periodStartDate`/`periodEndDate` as exposed by the memo: absent exactly
when there is no active config. -/
def periodOf (s : AppState) (now : Int) : Option (CivilDate × CivilDate) :=
  (activeCycleConfigOf s).map (fun cfg => resolveCurrentPeriod cfg now)

/-- The live budget set by the effect (`null` when no active config/period). -/
def currentCycleBudgetOf (s : AppState) (now : Int) (dateSaved : String)
    (cats : List Category) : Option BudgetRecord :=
  match activeCycleProfileOf s with
  | none => none
  | some p =>
      some (liveBudgetOf cats p.config p.name (currentDailyExpensesOf s) now dateSaved)

/-- Result of `handleForceCreateBudget`: open the confirmation modal with the
period bounds, or show the `alert` notice. -/
inductive ForceCreateAction where
  | openModal (startD : CivilDate) (endMs : Int)
  | notice (msg : String)
deriving DecidableEq, Repr

/-- `handleForceCreateBudget`. -/
def handleForceCreateBudget (s : AppState) (now : Int) : ForceCreateAction :=
  match activeCycleConfigOf s with
  | some cfg =>
      .openModal (resolveCurrentPeriod cfg now).1 (msOf (resolveCurrentPeriod cfg now).2 - 1)
  | none => .notice "No hay un ciclo de pago activo configurado para crear un presupuesto."

/-- The budget record appended by a confirmed force-create (`saveIdMs` is the
`Date.now()` of the save, `todayStr`/`isoStr` the formatted creation date). -/
def forceCreatedBudget (s : AppState) (cfg : PayCycleConfig) (now saveIdMs : Int)
    (todayStr isoStr : String) (cats : List Category) : BudgetRecord :=
  { id := toString saveIdMs
    name := "Presupuesto Parcial " ++ todayStr
    totalIncome := cfg.income
    categories := forceCreateCategories cats
      (mergedExpensesOf (currentDailyExpensesOf s) (currentFutureExpensesOf s)
        (msOf (resolveCurrentPeriod cfg now).1) (msOf (resolveCurrentPeriod cfg now).2 - 1))
      cfg.income
    dateSaved := isoStr
    frequency := cfg.frequency }

/-- `handleSaveNewBudget` (id generation folded into the record argument):
append the new record to the saved list. -/
def handleSaveNewBudget (s : AppState) (nb : BudgetRecord) : AppState :=
  { s with savedBudgets := s.savedBudgets ++ [nb] }

/-- `handleConfirmForceCreate`: no-op without an active config/period,
otherwise merge, synthesize and append exactly one budget. -/
def handleConfirmForceCreate (s : AppState) (now saveIdMs : Int)
    (todayStr isoStr : String) (cats : List Category) : AppState :=
  match activeCycleConfigOf s with
  | none => s
  | some cfg =>
      handleSaveNewBudget s (forceCreatedBudget s cfg now saveIdMs todayStr isoStr cats)

/-! ## Orphan cleanup (MainApp.tsx lines 267-291) -/

/-- `cleanExpenses`: keep entries whose key is a live profile id, in order;
report whether anything was dropped. -/
def cleanExpenses {A : Type} (profileIds : List String) :
    List (String × A) → List (String × A) × Bool
  | [] => ([], false)
  | (k, v) :: t =>
      if k ∈ profileIds then
        ((k, v) :: (cleanExpenses profileIds t).1, (cleanExpenses profileIds t).2)
      else ((cleanExpenses profileIds t).1, true)

/-- The orphan-cleanup reconciliation pass over both expense mappings. -/
def orphanCleanup (s : AppState) : AppState :=
  { s with
    allDailyExpenses := (cleanExpenses (s.cycleProfiles.map (fun p => p.id)) s.allDailyExpenses).1
    allFutureExpenses := (cleanExpenses (s.cycleProfiles.map (fun p => p.id)) s.allFutureExpenses).1 }


/-! ## Concrete fixtures for example theorems -/

/-- A sample registry category. -/
def foodCat : Category := ⟨"food", "Comida", "fa-utensils", "#f00"⟩

/-- A sample savings registry category. -/
def savingsCat : Category := ⟨"savings", "Ahorros", "fa-piggy-bank", "#0f0"⟩

/-- A sample cycle profile. -/
def exampleProfile : CycleProfile := ⟨"a", "Quincena", ⟨⟨2024, 1, 1⟩, .quincenal, 800⟩⟩

/-- A sample application state with one live profile "a" and an orphaned
expense key "b". -/
def exampleState : AppState :=
  ⟨[], 0, [exampleProfile], some "a",
    [("a", [(⟨2024, 1, 2⟩, [⟨"e0", "", 5, "food"⟩])]),
     ("b", [(⟨2024, 1, 3⟩, [⟨"e1", "", 7, "food"⟩])])],
    [("b", [])]⟩

/-- A sample application state with no profiles and no active cycle. -/
def exampleEmptyState : AppState := ⟨[], 0, [], none, [], []⟩

section CalendarLemmas

theorem isLeap_iff (y : Int) :
    isLeap y = true ↔ ((y % 4 = 0 ∧ ¬ y % 100 = 0) ∨ y % 400 = 0) := by
  simp [isLeap]

theorem daysBeforeYear_succ (y : Int) :
    daysBeforeYear (y + 1) = daysBeforeYear y + (if isLeap y then 366 else 365) := by
  have h := isLeap_iff y
  cases hb : isLeap y
  · rw [hb] at h
    simp only [Bool.false_eq_true, false_iff] at h
    rw [if_neg (by simp)]
    unfold daysBeforeYear
    omega
  · rw [hb] at h
    simp only [true_iff] at h
    rw [if_pos rfl]
    unfold daysBeforeYear
    omega

theorem monthLen_bounds (y : Int) (m : Nat) (h1 : 1 ≤ m) (h2 : m ≤ 12) :
    28 ≤ monthLen y m ∧ monthLen y m ≤ 31 := by
  interval_cases m <;> cases hb : isLeap y <;> simp [monthLen, hb]

theorem cumDays_succ (y : Int) (m : Nat) (h1 : 1 ≤ m) (h2 : m ≤ 12) :
    cumDays y (m + 1) = cumDays y m + monthLen y m := by
  interval_cases m <;> cases hb : isLeap y <;>
    simp [cumDays, cumBase, monthLen, hb]

theorem cumDays_close (y : Int) :
    cumDays y 13 = cumDays y 12 + 31 := by
  cases hb : isLeap y <;> simp [cumDays, cumBase, hb]

theorem cumDays_le_succ_year (y : Int) (m : Nat) :
    cumDays y m ≤ cumDays (y + 1) m + 1 := by
  unfold cumDays
  split <;> split <;> omega

theorem cumDays_one (y : Int) : cumDays y 1 = 0 := by
  simp [cumDays, cumBase]

theorem cumDays_twelve (y : Int) :
    cumDays y 12 = 334 + (if isLeap y then 1 else 0) := by
  cases hb : isLeap y <;> simp [cumDays, cumBase, hb]

theorem daysBeforeYear_succ_true (y : Int) (hb : isLeap y = true) :
    daysBeforeYear (y + 1) = daysBeforeYear y + 366 := by
  have h := daysBeforeYear_succ y
  rw [hb] at h
  simpa using h

theorem daysBeforeYear_succ_false (y : Int) (hb : isLeap y = false) :
    daysBeforeYear (y + 1) = daysBeforeYear y + 365 := by
  have h := daysBeforeYear_succ y
  rw [hb] at h
  simpa using h

theorem cumDays_twelve_true (y : Int) (hb : isLeap y = true) :
    cumDays y 12 = 335 := by
  have h := cumDays_twelve y
  rw [hb] at h
  simpa using h

theorem cumDays_twelve_false (y : Int) (hb : isLeap y = false) :
    cumDays y 12 = 334 := by
  have h := cumDays_twelve y
  rw [hb] at h
  simpa using h

theorem nextDay_toDays (t : CivilDate) (h : t.IsValid) :
    toDays (nextDay t) = toDays t + 1 := by
  obtain ⟨h1, h2, h3, h4⟩ := h
  unfold nextDay
  split
  · simp only [toDays]
    omega
  · rename_i hlt
    split
    · rename_i hm
      have hc := cumDays_succ t.year t.month h1 h2
      simp only [toDays]
      omega
    · rename_i hm
      have hm12 : t.month = 12 := by omega
      have e3 : monthLen t.year t.month = 31 := by rw [hm12]; rfl
      have e1 : cumDays (t.year + 1) 1 = 0 := cumDays_one _
      simp only [toDays]
      rw [hm12]
      cases hb : isLeap t.year
      · have hy := daysBeforeYear_succ_false t.year hb
        have e2 := cumDays_twelve_false t.year hb
        omega
      · have hy := daysBeforeYear_succ_true t.year hb
        have e2 := cumDays_twelve_true t.year hb
        omega

theorem nextDay_valid (t : CivilDate) (h : t.IsValid) :
    (nextDay t).IsValid := by
  obtain ⟨h1, h2, h3, h4⟩ := h
  unfold nextDay
  split
  · rename_i hlt
    unfold CivilDate.IsValid
    dsimp only
    omega
  · split
    · rename_i hm
      have := monthLen_bounds t.year (t.month + 1) (by omega) (by omega)
      unfold CivilDate.IsValid
      dsimp only
      omega
    · have e4 : monthLen (t.year + 1) 1 = 31 := rfl
      unfold CivilDate.IsValid
      dsimp only
      omega

theorem addDays_toDays (n : Nat) (t : CivilDate) (h : t.IsValid) :
    toDays (addDays n t) = toDays t + n ∧ (addDays n t).IsValid := by
  induction n with
  | zero => exact ⟨by simp [addDays], h⟩
  | succ k ih =>
      refine ⟨?_, nextDay_valid _ ih.2⟩
      show toDays (nextDay (addDays k t)) = _
      rw [nextDay_toDays _ ih.2, ih.1]
      push_cast
      ring

theorem addMonth_toDays (t : CivilDate) (h : t.IsValid) :
    toDays (addMonth t) =
      (if t.month = 12 then daysBeforeYear (t.year + 1)
       else daysBeforeYear t.year + (cumDays t.year (t.month + 1) : Int))
      + t.day - 1 := by
  obtain ⟨h1, h2, h3, h4⟩ := h
  have hlen := monthLen_bounds t.year t.month h1 h2
  by_cases hm : t.month = 12
  · rw [if_pos hm]
    unfold addMonth
    rw [if_pos hm]
    have e3 : monthLen t.year t.month = 31 := by rw [hm]; rfl
    have e4 : monthLen (t.year + 1) 1 = 31 := rfl
    rw [if_pos (by omega)]
    have e1 : cumDays (t.year + 1) 1 = 0 := cumDays_one _
    simp only [toDays]
    omega
  · rw [if_neg hm]
    unfold addMonth
    rw [if_neg hm]
    split
    · simp only [toDays]
    · rename_i hd
      split
      · rename_i hm12
        have hm11 : t.month = 11 := by omega
        have e1 : cumDays (t.year + 1) 1 = 0 := cumDays_one _
        have e3 : monthLen t.year (t.month + 1) = 31 := by rw [hm11]; rfl
        simp only [toDays]
        rw [hm11] at hd e3 ⊢
        cases hb : isLeap t.year
        · have hy := daysBeforeYear_succ_false t.year hb
          have e2 := cumDays_twelve_false t.year hb
          omega
        · have hy := daysBeforeYear_succ_true t.year hb
          have e2 := cumDays_twelve_true t.year hb
          omega
      · rename_i hm12
        have hc := cumDays_succ t.year (t.month + 1) (by omega) (by omega)
        rw [show t.month + 1 + 1 = t.month + 2 from by omega] at hc
        simp only [toDays]
        omega

theorem addMonth_valid (t : CivilDate) (h : t.IsValid) :
    (addMonth t).IsValid := by
  obtain ⟨h1, h2, h3, h4⟩ := h
  have hlen := monthLen_bounds t.year t.month h1 h2
  unfold addMonth
  by_cases hm : t.month = 12
  · rw [if_pos hm]
    have e3 : monthLen t.year t.month = 31 := by rw [hm]; rfl
    have e4 : monthLen (t.year + 1) 1 = 31 := rfl
    rw [if_pos (by omega)]
    unfold CivilDate.IsValid
    dsimp only
    omega
  · rw [if_neg hm]
    have hnext := monthLen_bounds t.year (t.month + 1) (by omega) (by omega)
    split
    · rename_i hd
      unfold CivilDate.IsValid
      dsimp only
      omega
    · rename_i hd
      split
      · rename_i hm12
        have e4 : monthLen (t.year + 1) 1 = 31 := rfl
        unfold CivilDate.IsValid
        dsimp only
        omega
      · rename_i hm12
        have hnn := monthLen_bounds t.year (t.month + 2) (by omega) (by omega)
        unfold CivilDate.IsValid
        dsimp only
        omega

theorem addYear_toDays (t : CivilDate) (h : t.IsValid) :
    toDays (addYear t) =
      daysBeforeYear (t.year + 1) + (cumDays (t.year + 1) t.month : Int) + t.day - 1 := by
  obtain ⟨h1, h2, h3, h4⟩ := h
  have hlen := monthLen_bounds t.year t.month h1 h2
  have hlen1 := monthLen_bounds (t.year + 1) t.month h1 h2
  unfold addYear
  split
  · simp only [toDays]
  · rename_i hd
    split
    · rename_i hm12
      exfalso
      have e3 : monthLen (t.year + 1) t.month = 31 := by rw [hm12]; rfl
      have e5 : monthLen t.year t.month = 31 := by rw [hm12]; rfl
      omega
    · rename_i hm12
      have hc := cumDays_succ (t.year + 1) t.month h1 h2
      simp only [toDays]
      omega

theorem addYear_valid (t : CivilDate) (h : t.IsValid) :
    (addYear t).IsValid := by
  obtain ⟨h1, h2, h3, h4⟩ := h
  have hlen := monthLen_bounds t.year t.month h1 h2
  have hlen1 := monthLen_bounds (t.year + 1) t.month h1 h2
  unfold addYear
  split
  · rename_i hd
    unfold CivilDate.IsValid
    dsimp only
    omega
  · rename_i hd
    split
    · rename_i hm12
      exfalso
      have e3 : monthLen (t.year + 1) t.month = 31 := by rw [hm12]; rfl
      have e5 : monthLen t.year t.month = 31 := by rw [hm12]; rfl
      omega
    · rename_i hm12
      have hnn := monthLen_bounds (t.year + 1) (t.month + 1) (by omega) (by omega)
      unfold CivilDate.IsValid
      dsimp only
      omega

theorem advance_valid (f : PayCycleFrequency) (t : CivilDate) (h : t.IsValid) :
    (advance f t).IsValid := by
  cases f with
  | semanal => exact (addDays_toDays 7 t h).2
  | quincenal => exact (addDays_toDays 14 t h).2
  | mensual => exact addMonth_valid t h
  | anual => exact addYear_valid t h

theorem advance_toDays_lt (f : PayCycleFrequency) (t : CivilDate) (h : t.IsValid) :
    toDays t < toDays (advance f t) := by
  cases f with
  | semanal =>
      have := (addDays_toDays 7 t h).1
      simp only [advance]
      omega
  | quincenal =>
      have := (addDays_toDays 14 t h).1
      simp only [advance]
      omega
  | mensual =>
      obtain ⟨h1, h2, h3, h4⟩ := h
      have hmt := addMonth_toDays t ⟨h1, h2, h3, h4⟩
      simp only [advance]
      rw [hmt]
      by_cases hm : t.month = 12
      · rw [if_pos hm]
        simp only [toDays]
        rw [hm]
        cases hb : isLeap t.year
        · have hy := daysBeforeYear_succ_false t.year hb
          have e2 := cumDays_twelve_false t.year hb
          omega
        · have hy := daysBeforeYear_succ_true t.year hb
          have e2 := cumDays_twelve_true t.year hb
          omega
      · rw [if_neg hm]
        have hc := cumDays_succ t.year t.month h1 (by omega)
        have hlen := monthLen_bounds t.year t.month h1 h2
        simp only [toDays]
        omega
  | anual =>
      obtain ⟨h1, h2, h3, h4⟩ := h
      have hmt := addYear_toDays t ⟨h1, h2, h3, h4⟩
      have hcle := cumDays_le_succ_year t.year t.month
      simp only [advance]
      rw [hmt]
      simp only [toDays]
      cases hb : isLeap t.year
      · have hy := daysBeforeYear_succ_false t.year hb
        omega
      · have hy := daysBeforeYear_succ_true t.year hb
        omega

theorem advance_msOf (f : PayCycleFrequency) (t : CivilDate) (h : t.IsValid) :
    msOf t + msPerDay ≤ msOf (advance f t) := by
  have := advance_toDays_lt f t h
  unfold msOf msPerDay
  omega

end CalendarLemmas

theorem loopFuel_spec (bound : Int) (s : CivilDate) :
    bound < msPerDay * (loopFuel bound s : Int) + msOf s := by
  unfold loopFuel msPerDay
  generalize msOf s = b
  omega

theorem resolveLoop_spec (f : PayCycleFrequency) (now : Int) :
    ∀ (fuel : Nat) (cur next : CivilDate), cur.IsValid → next.IsValid →
    now < msPerDay * (fuel : Int) + msOf next →
    (resolveLoop f now fuel cur next).1.IsValid ∧
    (resolveLoop f now fuel cur next).2.IsValid ∧
    now < msOf (resolveLoop f now fuel cur next).2 ∧
    (msOf cur ≤ now → msOf (resolveLoop f now fuel cur next).1 ≤ now) ∧
    (next = advance f cur →
      (resolveLoop f now fuel cur next).2 = advance f (resolveLoop f now fuel cur next).1) := by
  intro fuel
  induction fuel with
  | zero =>
      intro cur next hc hn hb
      simp only [resolveLoop]
      have : now < msOf next := by
        have : msPerDay * ((0 : Nat) : Int) = 0 := by norm_num
        omega
      exact ⟨hc, hn, this, fun h => h, fun h => h⟩
  | succ k ih =>
      intro cur next hc hn hb
      simp only [resolveLoop]
      by_cases hle : msOf next ≤ now
      · rw [if_pos hle]
        have hadv := advance_msOf f next hn
        have hres := ih next (advance f next) hn (advance_valid f next hn)
          (by simp only [msPerDay] at hb hadv ⊢; push_cast at hb ⊢; omega)
        exact ⟨hres.1, hres.2.1, hres.2.2.1,
          fun _ => hres.2.2.2.1 hle, fun _ => hres.2.2.2.2 rfl⟩
      · rw [if_neg hle]
        exact ⟨hc, hn, by dsimp only; omega, fun h => h, fun h => h⟩

theorem resolveCurrentPeriod_spec (cfg : PayCycleConfig) (now : Int)
    (hv : cfg.startDate.IsValid) (h : msOf cfg.startDate ≤ now) :
    (resolveCurrentPeriod cfg now).1.IsValid ∧
    (resolveCurrentPeriod cfg now).2.IsValid ∧
    msOf (resolveCurrentPeriod cfg now).1 ≤ now ∧
    now < msOf (resolveCurrentPeriod cfg now).2 ∧
    (resolveCurrentPeriod cfg now).2 = advance cfg.frequency (resolveCurrentPeriod cfg now).1 := by
  have hfuel := loopFuel_spec now cfg.startDate
  unfold resolveCurrentPeriod
  unfold loopFuel at hfuel ⊢
  generalize hA : (now + msPerDay - msOf cfg.startDate).toNat / 86400000 = A at *
  simp only [resolveLoop]
  rw [if_pos h]
  have hadv := advance_msOf cfg.frequency cfg.startDate hv
  have hres := resolveLoop_spec cfg.frequency now A cfg.startDate
    (advance cfg.frequency cfg.startDate) hv (advance_valid _ _ hv)
    (by simp only [msPerDay] at hfuel hadv ⊢; push_cast at hfuel ⊢; omega)
  exact ⟨hres.1, hres.2.1, hres.2.2.2.1 h, hres.2.2.1, hres.2.2.2.2 rfl⟩

section MaterializerLemmas

theorem stepF_valid (f : FutureFrequency) (t : CivilDate) (h : t.IsValid) :
    (stepF f t).IsValid := by
  cases f with
  | semanal => exact (addDays_toDays 7 t h).2
  | quincenal => exact (addDays_toDays 14 t h).2
  | mensual => exact addMonth_valid t h
  | anual => exact addYear_valid t h
  | unaVez => exact h

theorem stepF_msOf (f : FutureFrequency) (t : CivilDate) (h : t.IsValid) :
    msOf t ≤ msOf (stepF f t) ∧
      (f ≠ .unaVez → msOf t + msPerDay ≤ msOf (stepF f t)) := by
  cases f with
  | semanal =>
      have ha := advance_msOf .semanal t h
      simp only [advance] at ha
      simp only [stepF]
      exact ⟨by unfold msPerDay at ha; omega, fun _ => ha⟩
  | quincenal =>
      have ha := advance_msOf .quincenal t h
      simp only [advance] at ha
      simp only [stepF]
      exact ⟨by unfold msPerDay at ha; omega, fun _ => ha⟩
  | mensual =>
      have ha := advance_msOf .mensual t h
      simp only [advance] at ha
      simp only [stepF]
      exact ⟨by unfold msPerDay at ha; omega, fun _ => ha⟩
  | anual =>
      have ha := advance_msOf .anual t h
      simp only [advance] at ha
      simp only [stepF]
      exact ⟨by unfold msPerDay at ha; omega, fun _ => ha⟩
  | unaVez => exact ⟨le_refl _, fun hf => absurd rfl hf⟩

theorem occSeq_valid_ge (f : FutureFrequency) :
    ∀ (i : Nat) (t : CivilDate), t.IsValid →
      (occSeq f t i).IsValid ∧ msOf t ≤ msOf (occSeq f t i) := by
  intro i
  induction i with
  | zero => intro t h; exact ⟨h, le_refl _⟩
  | succ k ih =>
      intro t h
      simp only [occSeq]
      have hs := stepF_valid f t h
      have hm := (stepF_msOf f t h).1
      have hrec := ih (stepF f t) hs
      exact ⟨hrec.1, le_trans hm hrec.2⟩

theorem occSeq_unaVez :
    ∀ (i : Nat) (t : CivilDate), occSeq .unaVez t i = t := by
  intro i
  induction i with
  | zero => intro t; rfl
  | succ k ih => intro t; simp only [occSeq, stepF]; exact ih t

theorem endOk_false_mono (endD : Option CivilDate) (a b : CivilDate)
    (hab : msOf a ≤ msOf b) (h : endOk endD a = false) : endOk endD b = false := by
  cases endD with
  | none => simp [endOk] at h
  | some e =>
      simp only [endOk, decide_eq_false_iff_not] at h ⊢
      omega

theorem materializeDates_spec (f : FutureFrequency) (endD : Option CivilDate) (ws we : Int) :
    ∀ (fuel : Nat) (occ : CivilDate), occ.IsValid →
    we < msPerDay * (fuel : Int) + msOf occ →
    ((∀ v, v ∈ materializeDates f endD ws we fuel occ ↔
        ((∃ i, v = occSeq f occ i) ∧ ws ≤ msOf v ∧ msOf v ≤ we ∧ endOk endD v = true)) ∧
     List.Pairwise (fun a b => msOf a < msOf b) (materializeDates f endD ws we fuel occ) ∧
     (∀ v ∈ materializeDates f endD ws we fuel occ, msOf occ ≤ msOf v)) := by
  intro fuel
  induction fuel with
  | zero =>
      intro occ hv hb
      refine ⟨?_, by simp [materializeDates], by simp [materializeDates]⟩
      intro v
      simp only [materializeDates, List.not_mem_nil, false_iff]
      rintro ⟨⟨i, rfl⟩, h1, h2, h3⟩
      have hge := (occSeq_valid_ge f i occ hv).2
      have hz : msPerDay * ((0 : Nat) : Int) = 0 := by norm_num
      omega
  | succ k ih =>
      intro occ hv hb
      by_cases hcond : msOf occ ≤ we ∧ endOk endD occ = true
      · by_cases hf : f = .unaVez
        · subst hf
          simp only [materializeDates, if_pos hcond, if_true, List.append_nil]
          refine ⟨?_, ?_, ?_⟩
          · intro v
            constructor
            · intro hmem
              by_cases hws : ws ≤ msOf occ
              · rw [if_pos hws] at hmem
                simp only [List.mem_singleton] at hmem
                subst hmem
                exact ⟨⟨0, rfl⟩, hws, hcond.1, hcond.2⟩
              · rw [if_neg hws] at hmem
                simp at hmem
            · rintro ⟨⟨i, rfl⟩, h1, h2, h3⟩
              rw [occSeq_unaVez i occ] at h1 h2 h3 ⊢
              rw [if_pos h1]
              simp
          · by_cases hws : ws ≤ msOf occ
            · rw [if_pos hws]; simp
            · rw [if_neg hws]; simp
          · intro v hvmem
            by_cases hws : ws ≤ msOf occ
            · rw [if_pos hws] at hvmem
              simp only [List.mem_singleton] at hvmem
              subst hvmem; exact le_refl _
            · rw [if_neg hws] at hvmem
              simp at hvmem
        · have hsv := stepF_valid f occ hv
          have hsm := (stepF_msOf f occ hv).2 hf
          have hrec := ih (stepF f occ) hsv
            (by unfold msPerDay at hsm hb ⊢; push_cast at hb ⊢; omega)
          simp only [materializeDates, if_pos hcond, if_neg hf]
          refine ⟨?_, ?_, ?_⟩
          · intro v
            rw [List.mem_append]
            constructor
            · rintro (hmem | hmem)
              · by_cases hws : ws ≤ msOf occ
                · rw [if_pos hws] at hmem
                  simp only [List.mem_singleton] at hmem
                  subst hmem
                  exact ⟨⟨0, rfl⟩, hws, hcond.1, hcond.2⟩
                · rw [if_neg hws] at hmem
                  simp at hmem
              · obtain ⟨⟨i, hvi⟩, h1, h2, h3⟩ := (hrec.1 v).mp hmem
                exact ⟨⟨i + 1, hvi⟩, h1, h2, h3⟩
            · rintro ⟨⟨i, rfl⟩, h1, h2, h3⟩
              cases i with
              | zero =>
                  left
                  simp only [occSeq] at h1 ⊢
                  rw [if_pos h1]
                  simp
              | succ j =>
                  right
                  exact (hrec.1 _).mpr ⟨⟨j, rfl⟩, h1, h2, h3⟩
          · rw [List.pairwise_append]
            refine ⟨?_, hrec.2.1, ?_⟩
            · by_cases hws : ws ≤ msOf occ
              · rw [if_pos hws]; simp
              · rw [if_neg hws]; simp
            · intro a ha b hbmem
              have hbge := hrec.2.2 b hbmem
              by_cases hws : ws ≤ msOf occ
              · rw [if_pos hws] at ha
                simp only [List.mem_singleton] at ha
                subst ha
                unfold msPerDay at hsm
                omega
              · rw [if_neg hws] at ha
                simp at ha
          · intro v hvmem
            rw [List.mem_append] at hvmem
            rcases hvmem with hmem | hmem
            · by_cases hws : ws ≤ msOf occ
              · rw [if_pos hws] at hmem
                simp only [List.mem_singleton] at hmem
                subst hmem; exact le_refl _
              · rw [if_neg hws] at hmem
                simp at hmem
            · have := hrec.2.2 v hmem
              unfold msPerDay at hsm
              omega
      · simp only [materializeDates, if_neg hcond]
        refine ⟨?_, by simp, by simp⟩
        intro v
        simp only [List.not_mem_nil, false_iff]
        rintro ⟨⟨i, rfl⟩, h1, h2, h3⟩
        have hge := (occSeq_valid_ge f i occ hv).2
        rw [Classical.not_and_iff_or_not_not] at hcond
        rcases hcond with hgt | hend
        · omega
        · have hfalse : endOk endD occ = false := by
            cases hE : endOk endD occ
            · rfl
            · exact absurd hE hend
          have := endOk_false_mono endD occ (occSeq f occ i) hge hfalse
          rw [this] at h3
          cases h3

end MaterializerLemmas

section AggregationLemmas

theorem catSum_cons (e : DailyExpense) (es : List DailyExpense) (cid : String) :
    catSum (e :: es) cid = (if e.categoryId = cid then e.amount else 0) + catSum es cid := by
  by_cases hc : e.categoryId = cid <;> simp [catSum, List.filter_cons, hc]

theorem bumpCategory_map (cats : List Category) (g : Category → Int) (cid : String)
    (amt : Int) (hnd : (cats.map (fun c => c.id)).Nodup) :
    bumpCategory (cats.map (fun c => (c, g c))) cid amt =
      cats.map (fun c => (c, if c.id = cid then g c + amt else g c)) := by
  induction cats with
  | nil => rfl
  | cons c cs ih =>
      simp only [List.map_cons, List.nodup_cons] at hnd ⊢
      simp only [bumpCategory]
      by_cases hc : c.id = cid
      · rw [if_pos hc, if_pos hc]
        congr 1
        apply List.map_congr_left
        intro c2 hc2
        have : ¬ c2.id = cid := by
          intro hgg
          exact hnd.1 (by rw [hc, ← hgg]; exact List.mem_map_of_mem _ hc2)
        rw [if_neg this]
      · rw [if_neg hc, if_neg hc]
        congr 1
        exact ih hnd.2

theorem foldl_bump (cats : List Category) (hnd : (cats.map (fun c => c.id)).Nodup)
    (exps : List DailyExpense) :
    ∀ g : Category → Int,
      exps.foldl (fun a e => bumpCategory a e.categoryId e.amount)
          (cats.map (fun c => (c, g c))) =
        cats.map (fun c => (c, g c + catSum exps c.id)) := by
  induction exps with
  | nil =>
      intro g
      simp only [List.foldl_nil]
      apply List.map_congr_left
      intro c hc
      simp [catSum]
  | cons e es ih =>
      intro g
      simp only [List.foldl_cons]
      rw [bumpCategory_map cats g e.categoryId e.amount hnd,
        ih (fun c => if c.id = e.categoryId then g c + e.amount else g c)]
      apply List.map_congr_left
      intro c hc
      have hcs := catSum_cons e es c.id
      by_cases hco : c.id = e.categoryId
      · rw [if_pos hco, hcs, if_pos hco.symm]
        congr 1
        ring
      · rw [if_neg hco, hcs, if_neg (fun hh => hco hh.symm)]
        congr 1
        ring

theorem periodTotal_cons (p : CivilDate × List DailyExpense) (t : DailyMap)
    (ps pe : Int) (cid : String) :
    periodTotal (p :: t) ps pe cid =
      (if ps ≤ middayMs p.1 ∧ middayMs p.1 ≤ pe then catSum p.2 cid else 0) +
        periodTotal t ps pe cid := by
  simp [periodTotal]

theorem aggregate_eq (cats : List Category) (hnd : (cats.map (fun c => c.id)).Nodup)
    (daily : DailyMap) (ps pe : Int) :
    aggregateSpending cats daily ps pe =
      cats.map (fun c => (c, periodTotal daily ps pe c.id)) := by
  suffices h : ∀ (d : DailyMap) (g : Category → Int),
      d.foldl
          (fun acc p =>
            if ps ≤ middayMs p.1 ∧ middayMs p.1 ≤ pe then
              p.2.foldl (fun a e => bumpCategory a e.categoryId e.amount) acc
            else acc)
          (cats.map (fun c => (c, g c))) =
        cats.map (fun c => (c, g c + periodTotal d ps pe c.id)) by
    have h0 := h daily (fun _ => 0)
    unfold aggregateSpending
    rw [h0]
    apply List.map_congr_left
    intro c hc
    rw [zero_add]
  intro d
  induction d with
  | nil =>
      intro g
      simp only [List.foldl_nil]
      apply List.map_congr_left
      intro c hc
      simp [periodTotal]
  | cons p t ih =>
      intro g
      simp only [List.foldl_cons]
      by_cases hin : ps ≤ middayMs p.1 ∧ middayMs p.1 ≤ pe
      · rw [if_pos hin, foldl_bump cats hnd p.2 g,
          ih (fun c => g c + catSum p.2 c.id)]
        apply List.map_congr_left
        intro c hc
        rw [periodTotal_cons, if_pos hin]
        congr 1
        ring
      · rw [if_neg hin, ih g]
        apply List.map_congr_left
        intro c hc
        rw [periodTotal_cons, if_neg hin]
        congr 1
        ring

theorem find_in_mapped_filter (cats : List Category) (g : Category → Int)
    (cat : Category) (hmem : cat ∈ cats)
    (hnd : (cats.map (fun c => c.id)).Nodup) :
    ((cats.map (fun c => (c, g c))).filter (fun p => p.2 > 0)).find?
        (fun item => item.1.id = cat.id) =
      if g cat > 0 then some (cat, g cat) else none := by
  induction cats with
  | nil => cases hmem
  | cons c cs ih =>
      simp only [List.map_cons, List.nodup_cons] at hnd
      simp only [List.map_cons, List.filter_cons]
      rcases List.mem_cons.mp hmem with rfl | hmem2
      · by_cases hg : g cat > 0
        · rw [if_pos hg]
          simp only [decide_eq_true_eq]
          rw [if_pos hg]
          rw [List.find?_cons_of_pos _ (by simp)]
        · rw [if_neg hg]
          simp only [decide_eq_true_eq]
          rw [if_neg hg]
          apply List.find?_eq_none.mpr
          intro x hx
          have hx2 := List.mem_filter.mp hx
          obtain ⟨c2, hc2, hc2x⟩ := List.mem_map.mp hx2.1
          simp only [decide_eq_true_eq]
          intro hxid
          apply hnd.1
          rw [← hxid, ← hc2x]
          exact List.mem_map_of_mem _ hc2
      · have hcid : ¬ c.id = cat.id := by
          intro hgg
          exact hnd.1 (by rw [hgg]; exact List.mem_map_of_mem _ hmem2)
        by_cases hgc : g c > 0
        · simp only [decide_eq_true_eq]
          rw [if_pos hgc]
          rw [List.find?_cons_of_neg _ (by simp [hcid])]
          exact ih hmem2 hnd.2
        · simp only [decide_eq_true_eq]
          rw [if_neg hgc]
          exact ih hmem2 hnd.2

end AggregationLemmas

section ForceCreateLemmas

theorem overwriteSavings_amount (l : List (Category × Int)) (v : Int)
    (h : ∃ p ∈ l, p.1.id = "savings") :
    amountOf (overwriteSavings l v) "savings" = v := by
  induction l with
  | nil => obtain ⟨p, hp, _⟩ := h; cases hp
  | cons q t ih =>
      simp only [overwriteSavings]
      by_cases hq : q.1.id = "savings"
      · rw [if_pos hq]
        unfold amountOf
        rw [List.find?_cons_of_pos _ (by simp [hq])]
      · rw [if_neg hq]
        unfold amountOf
        rw [List.find?_cons_of_neg _ (by simp [hq])]
        have ht : ∃ p ∈ t, p.1.id = "savings" := by
          obtain ⟨p, hp, hps⟩ := h
          rcases List.mem_cons.mp hp with rfl | hp2
          · exact absurd hps hq
          · exact ⟨p, hp2, hps⟩
        exact ih ht

theorem overwriteSavings_filter (l : List (Category × Int)) (v : Int) :
    (overwriteSavings l v).filter (fun p => ¬ p.1.id = "savings") =
      l.filter (fun p => ¬ p.1.id = "savings") := by
  induction l with
  | nil => rfl
  | cons q t ih =>
      simp only [overwriteSavings]
      by_cases hq : q.1.id = "savings"
      · rw [if_pos hq]
        simp [List.filter_cons, hq]
      · rw [if_neg hq]
        simp [List.filter_cons, hq]
        simpa using ih

end ForceCreateLemmas

section CleanupLemmas

theorem cleanExpenses_spec {A : Type} (ids : List String) (l : List (String × A)) :
    (∀ k, k ∈ (cleanExpenses ids l).1.map (fun p => p.1) → k ∈ ids) ∧
    (∀ k, k ∈ ids →
      (cleanExpenses ids l).1.find? (fun p => p.1 = k) = l.find? (fun p => p.1 = k)) ∧
    (∀ k, ¬ k ∈ ids → (cleanExpenses ids l).1.find? (fun p => p.1 = k) = none) := by
  induction l with
  | nil => exact ⟨fun k h => by simp [cleanExpenses] at h, fun k _ => rfl, fun k _ => rfl⟩
  | cons q t ih =>
      simp only [cleanExpenses]
      by_cases hq : q.1 ∈ ids
      · rw [if_pos hq]
        refine ⟨?_, ?_, ?_⟩
        · intro k hk
          simp only [List.map_cons, List.mem_cons] at hk
          rcases hk with rfl | hk2
          · exact hq
          · exact ih.1 k hk2
        · intro k hk
          by_cases hqk : q.1 = k
          · rw [List.find?_cons_of_pos _ (by simp [hqk]),
              List.find?_cons_of_pos _ (by simp [hqk])]
          · rw [List.find?_cons_of_neg _ (by simp [hqk]),
              List.find?_cons_of_neg _ (by simp [hqk])]
            exact ih.2.1 k hk
        · intro k hk
          have hqk : ¬ q.1 = k := fun hgg => hk (hgg ▸ hq)
          rw [List.find?_cons_of_neg _ (by simp [hqk])]
          exact ih.2.2 k hk
      · rw [if_neg hq]
        refine ⟨ih.1, ?_, ih.2.2⟩
        intro k hk
        have hqk : ¬ q.1 = k := fun hgg => hq (hgg ▸ hk)
        rw [List.find?_cons_of_neg _ (by simp [hqk])]
        exact ih.2.1 k hk

end CleanupLemmas

/-! ## Claims -/

/-- C7: for every valid calendar date `d` and every frequency in
{weekly, biweekly, monthly, yearly}, the single-step date advance shared by
the period resolver and the materializer (+7 days, +14 days, +1 calendar
month, +1 calendar year) returns a date strictly greater than `d`, both as a
day number and as an instant. -/
theorem claim_C7 (f : PayCycleFrequency) (t : CivilDate) (h : t.IsValid) :
    toDays t < toDays (advance f t) ∧ msOf t < msOf (advance f t) := by
  have h1 := advance_toDays_lt f t h
  refine ⟨h1, ?_⟩
  unfold msOf msPerDay
  omega

/-- Witness for C7 at the month-end date 2024-01-31 (whose monthly advance
overflows into March). -/
theorem claim_C7_witness :
    (⟨2024, 1, 31⟩ : CivilDate).IsValid ∧
    (toDays ⟨2024, 1, 31⟩ < toDays (advance .mensual ⟨2024, 1, 31⟩) ∧
     msOf ⟨2024, 1, 31⟩ < msOf (advance .mensual ⟨2024, 1, 31⟩)) :=
  ⟨by decide, claim_C7 .mensual ⟨2024, 1, 31⟩ (by decide)⟩

/-- C1, counterexample: for the valid config (startDate 2024-01-10, weekly,
income 0) and now = midnight 2024-01-05 — a startDate in the future — the
resolver's loop never runs, so `periodStartDate > now` and advancing the
period start does not give the next period start: the claim's conjunction
fails as stated. -/
theorem claim_C1_counterexample :
    (⟨⟨2024, 1, 10⟩, .semanal, 0⟩ : PayCycleConfig).startDate.IsValid ∧
    (0 : Int) ≤ (⟨⟨2024, 1, 10⟩, .semanal, 0⟩ : PayCycleConfig).income ∧
    ¬ (msOf (periodStartDate ⟨⟨2024, 1, 10⟩, .semanal, 0⟩ (msOf ⟨2024, 1, 5⟩)) ≤
          msOf ⟨2024, 1, 5⟩ ∧
        msOf ⟨2024, 1, 5⟩ ≤ periodEndMs ⟨⟨2024, 1, 10⟩, .semanal, 0⟩ (msOf ⟨2024, 1, 5⟩) ∧
        advance .semanal (periodStartDate ⟨⟨2024, 1, 10⟩, .semanal, 0⟩ (msOf ⟨2024, 1, 5⟩)) =
          (resolveCurrentPeriod ⟨⟨2024, 1, 10⟩, .semanal, 0⟩ (msOf ⟨2024, 1, 5⟩)).2) := by
  decide

/-- C1 (amended): for every pay-cycle config with a valid startDate whose
midnight instant is not after `now`, the period resolution satisfies
`periodStartDate <= now <= periodEndDate`, and advancing `periodStartDate` by
one frequency step yields the next period start, which equals
`periodEndDate + 1` millisecond.  (When startDate is in the future the code
returns `periodStartDate = startDate > now` with
`periodEndDate = startDate - 1ms`, violating the original claim.) -/
theorem claim_C1 (cfg : PayCycleConfig) (now : Int)
    (hv : cfg.startDate.IsValid) (h : msOf cfg.startDate ≤ now) :
    msOf (periodStartDate cfg now) ≤ now ∧
    now ≤ periodEndMs cfg now ∧
    advance cfg.frequency (periodStartDate cfg now) = (resolveCurrentPeriod cfg now).2 ∧
    msOf (advance cfg.frequency (periodStartDate cfg now)) = periodEndMs cfg now + 1 := by
  have hs := resolveCurrentPeriod_spec cfg now hv h
  unfold periodStartDate periodEndMs
  refine ⟨hs.2.2.1, ?_, hs.2.2.2.2.symm, ?_⟩
  · have := hs.2.2.2.1
    omega
  · rw [← hs.2.2.2.2]
    omega

/-- Witness for C1 (amended) at a monthly config started 2024-01-01 observed
on 2024-01-15. -/
theorem claim_C1_witness :
    ((⟨⟨2024, 1, 1⟩, .mensual, 500⟩ : PayCycleConfig).startDate.IsValid ∧
     msOf (⟨⟨2024, 1, 1⟩, .mensual, 500⟩ : PayCycleConfig).startDate ≤ msOf ⟨2024, 1, 15⟩) ∧
    msOf (periodStartDate ⟨⟨2024, 1, 1⟩, .mensual, 500⟩ (msOf ⟨2024, 1, 15⟩)) ≤
      msOf ⟨2024, 1, 15⟩ ∧
    msOf ⟨2024, 1, 15⟩ ≤ periodEndMs ⟨⟨2024, 1, 1⟩, .mensual, 500⟩ (msOf ⟨2024, 1, 15⟩) :=
  ⟨⟨by decide, by decide⟩,
   (claim_C1 ⟨⟨2024, 1, 1⟩, .mensual, 500⟩ (msOf ⟨2024, 1, 15⟩) (by decide) (by decide)).1,
   (claim_C1 ⟨⟨2024, 1, 1⟩, .mensual, 500⟩ (msOf ⟨2024, 1, 15⟩) (by decide) (by decide)).2.1⟩

/-- C4: for every FutureExpense and window `[ws, we]`, materialization emits
exactly the occurrence dates reachable from `startDate` by whole frequency
steps that lie within the window and (when `endDate` is non-null) not after
it, in strictly increasing chronological order (hence no duplicates), with no
occurrence before `startDate`; in particular the weekly expense starting
2024-01-01 with null endDate over the window [2024-01-01, 2024-01-22] yields
exactly the four dates 01-01, 01-08, 01-15, 01-22. -/
theorem claim_C4 (fe : FutureExpense) (ws we : Int) (hv : fe.startDate.IsValid) :
    (∀ v, v ∈ materializeDates fe.frequency fe.endDate ws we
          (loopFuel we fe.startDate) fe.startDate ↔
        ((∃ i, v = occSeq fe.frequency fe.startDate i) ∧
         ws ≤ msOf v ∧ msOf v ≤ we ∧ endOk fe.endDate v = true)) ∧
    List.Pairwise (fun a b => msOf a < msOf b)
      (materializeDates fe.frequency fe.endDate ws we
        (loopFuel we fe.startDate) fe.startDate) ∧
    (∀ v ∈ materializeDates fe.frequency fe.endDate ws we
        (loopFuel we fe.startDate) fe.startDate, msOf fe.startDate ≤ msOf v) ∧
    materializeDates .semanal none (msOf ⟨2024, 1, 1⟩) (msOf ⟨2024, 1, 22⟩)
        (loopFuel (msOf ⟨2024, 1, 22⟩) ⟨2024, 1, 1⟩) ⟨2024, 1, 1⟩ =
      [⟨2024, 1, 1⟩, ⟨2024, 1, 8⟩, ⟨2024, 1, 15⟩, ⟨2024, 1, 22⟩] := by
  have hfuel := loopFuel_spec we fe.startDate
  have hs := materializeDates_spec fe.frequency fe.endDate ws we
    (loopFuel we fe.startDate) fe.startDate hv hfuel
  exact ⟨hs.1, hs.2.1, hs.2.2, by decide⟩

/-- Witness for C4 at a weekly future expense over a three-week window. -/
theorem claim_C4_witness :
    (⟨"f1", "n", 10, "food", ⟨2024, 1, 1⟩, none, .semanal⟩ :
        FutureExpense).startDate.IsValid ∧
    List.Pairwise (fun a b => msOf a < msOf b)
      (materializeDates FutureFrequency.semanal none (msOf ⟨2024, 1, 1⟩)
        (msOf ⟨2024, 1, 22⟩) (loopFuel (msOf ⟨2024, 1, 22⟩) ⟨2024, 1, 1⟩) ⟨2024, 1, 1⟩) :=
  ⟨by decide,
   (claim_C4 ⟨"f1", "n", 10, "food", ⟨2024, 1, 1⟩, none, .semanal⟩
     (msOf ⟨2024, 1, 1⟩) (msOf ⟨2024, 1, 22⟩) (by decide)).2.1⟩

/-- C6, counterexample: a 'una-vez' future expense whose `startDate`
2024-01-10 lies inside the window [2024-01-01, 2024-01-31] but whose
`endDate` 2024-01-05 precedes the start materializes zero occurrences — the
loop condition `occurrenceDate <= feEndDate` fails before the first
occurrence check — contradicting "exactly one occurrence when startDate lies
inside the window". -/
theorem claim_C6_counterexample :
    (msOf ⟨2024, 1, 1⟩ ≤ msOf (⟨2024, 1, 10⟩ : CivilDate) ∧
     msOf (⟨2024, 1, 10⟩ : CivilDate) ≤ msOf ⟨2024, 1, 31⟩) ∧
    materializeDates .unaVez (some ⟨2024, 1, 5⟩) (msOf ⟨2024, 1, 1⟩) (msOf ⟨2024, 1, 31⟩)
        (loopFuel (msOf ⟨2024, 1, 31⟩) ⟨2024, 1, 10⟩) ⟨2024, 1, 10⟩ = [] ∧
    ¬ (materializeDates .unaVez (some ⟨2024, 1, 5⟩) (msOf ⟨2024, 1, 1⟩) (msOf ⟨2024, 1, 31⟩)
        (loopFuel (msOf ⟨2024, 1, 31⟩) ⟨2024, 1, 10⟩) ⟨2024, 1, 10⟩ =
      [⟨2024, 1, 10⟩]) := by
  decide

/-- C6 (amended): a 'una-vez' future expense materializes exactly one
occurrence, dated `startDate`, when `startDate` lies inside the window and
additionally its `endDate`, if non-null, is not before `startDate` (otherwise
the loop is never entered and nothing is emitted); when `startDate` lies
outside the window it materializes zero occurrences, regardless of window
length. -/
theorem claim_C6 (endD : Option CivilDate) (ws we : Int) (start : CivilDate) :
    ((ws ≤ msOf start ∧ msOf start ≤ we ∧ endOk endD start = true) →
      materializeDates .unaVez endD ws we (loopFuel we start) start = [start]) ∧
    (¬ (ws ≤ msOf start ∧ msOf start ≤ we) →
      materializeDates .unaVez endD ws we (loopFuel we start) start = []) := by
  unfold loopFuel
  constructor
  · rintro ⟨h1, h2, h3⟩
    simp only [materializeDates, if_pos (And.intro h2 h3), if_pos h1, if_true,
      List.append_nil]
  · intro h
    by_cases h2 : msOf start ≤ we ∧ endOk endD start = true
    · have h1 : ¬ ws ≤ msOf start := fun hws => h ⟨hws, h2.1⟩
      simp only [materializeDates, if_pos h2, if_neg h1, if_true, List.append_nil]
    · simp only [materializeDates, if_neg h2]

/-- Witness for C6 (amended): one-off inside the window emits exactly its
start date; one-off after the window end emits nothing. -/
theorem claim_C6_witness :
    (msOf ⟨2024, 1, 1⟩ ≤ msOf (⟨2024, 1, 10⟩ : CivilDate) ∧
     msOf (⟨2024, 1, 10⟩ : CivilDate) ≤ msOf ⟨2024, 1, 31⟩ ∧
     endOk none ⟨2024, 1, 10⟩ = true) ∧
    materializeDates .unaVez none (msOf ⟨2024, 1, 1⟩) (msOf ⟨2024, 1, 31⟩)
        (loopFuel (msOf ⟨2024, 1, 31⟩) ⟨2024, 1, 10⟩) ⟨2024, 1, 10⟩ = [⟨2024, 1, 10⟩] ∧
    (¬ (msOf ⟨2024, 1, 1⟩ ≤ msOf (⟨2024, 2, 10⟩ : CivilDate) ∧
        msOf (⟨2024, 2, 10⟩ : CivilDate) ≤ msOf ⟨2024, 1, 31⟩)) ∧
    materializeDates .unaVez none (msOf ⟨2024, 1, 1⟩) (msOf ⟨2024, 1, 31⟩)
        (loopFuel (msOf ⟨2024, 1, 31⟩) ⟨2024, 2, 10⟩) ⟨2024, 2, 10⟩ = [] :=
  ⟨⟨by decide, by decide, by decide⟩,
   (claim_C6 none (msOf ⟨2024, 1, 1⟩) (msOf ⟨2024, 1, 31⟩) ⟨2024, 1, 10⟩).1
     ⟨by decide, by decide, by decide⟩,
   by decide,
   (claim_C6 none (msOf ⟨2024, 1, 1⟩) (msOf ⟨2024, 1, 31⟩) ⟨2024, 2, 10⟩).2 (by decide)⟩

/-- C5: for a duplicate-free category registry, the aggregation equals, per
registry category, the sum of the amounts of exactly those expenses whose
date key at midday falls within `[ps, pe]` inclusive (so an expense
contributes iff its midday instant is in range, and expenses with a
categoryId outside the registry contribute nothing and raise no error); in
particular the expenses {2024-01-05: 50 food, 2024-02-01: 20 food} aggregated
over [2024-01-01, 2024-01-31 23:59:59.999] yield a food total of exactly
50. -/
theorem claim_C5 (cats : List Category) (daily : DailyMap) (ps pe : Int)
    (hnd : (cats.map (fun c => c.id)).Nodup) :
    aggregateSpending cats daily ps pe =
      cats.map (fun c => (c, periodTotal daily ps pe c.id)) ∧
    aggregateSpending [foodCat]
        [(⟨2024, 1, 5⟩, [⟨"e1", "", 50, "food"⟩]), (⟨2024, 2, 1⟩, [⟨"e2", "", 20, "food"⟩])]
        (msOf ⟨2024, 1, 1⟩) (msOf ⟨2024, 2, 1⟩ - 1) = [(foodCat, 50)] :=
  ⟨aggregate_eq cats hnd daily ps pe, by decide⟩

/-- Witness for C5 on a two-category registry. -/
theorem claim_C5_witness :
    (([foodCat, savingsCat].map (fun c => c.id)).Nodup) ∧
    aggregateSpending [foodCat, savingsCat]
        [(⟨2024, 1, 5⟩, [⟨"e1", "", 50, "food"⟩])] (msOf ⟨2024, 1, 1⟩)
        (msOf ⟨2024, 2, 1⟩ - 1) =
      [foodCat, savingsCat].map (fun c =>
        (c, periodTotal [(⟨2024, 1, 5⟩, [⟨"e1", "", 50, "food"⟩])] (msOf ⟨2024, 1, 1⟩)
          (msOf ⟨2024, 2, 1⟩ - 1) c.id)) :=
  ⟨by decide,
   (claim_C5 [foodCat, savingsCat] [(⟨2024, 1, 5⟩, [⟨"e1", "", 50, "food"⟩])]
     (msOf ⟨2024, 1, 1⟩) (msOf ⟨2024, 2, 1⟩ - 1) (by decide)).1⟩

/-- C3, counterexample: with a single expense of amount -5 in the current
period, the category's unfiltered aggregated total is -5, yet the live
budget stamps the category with 0 (because the live budget reads the
display-filtered `currentPeriodSpending`, which drops non-positive totals):
the claim's "this holds even for a category whose aggregated period total is
negative" fails. -/
theorem claim_C3_counterexample :
    periodTotal [(⟨2024, 1, 5⟩, [⟨"e1", "", -5, "food"⟩])]
        (msOf (resolveCurrentPeriod ⟨⟨2024, 1, 1⟩, .mensual, 100⟩ (msOf ⟨2024, 1, 15⟩)).1)
        (msOf (resolveCurrentPeriod ⟨⟨2024, 1, 1⟩, .mensual, 100⟩ (msOf ⟨2024, 1, 15⟩)).2 - 1)
        "food" = -5 ∧
    (liveBudgetOf [foodCat] ⟨⟨2024, 1, 1⟩, .mensual, 100⟩ "P"
        [(⟨2024, 1, 5⟩, [⟨"e1", "", -5, "food"⟩])] (msOf ⟨2024, 1, 15⟩) "iso").categories =
      [(foodCat, 0)] ∧
    ¬ ((liveBudgetOf [foodCat] ⟨⟨2024, 1, 1⟩, .mensual, 100⟩ "P"
        [(⟨2024, 1, 5⟩, [⟨"e1", "", -5, "food"⟩])] (msOf ⟨2024, 1, 15⟩) "iso").categories =
      [(foodCat, -5)]) := by
  decide

/-- C3 (amended): for a duplicate-free registry, the live BudgetRecord
carries the sentinel id, `totalIncome` equal to the active config's income,
and one entry per registry category in registry order, stamped with that
category's aggregated period total when that total is positive and with 0
otherwise — agreeing with the unfiltered zero-inclusive total for every
category whose total is nonnegative, but stamping 0 (not the total) for a
category whose aggregated period total is negative. -/
theorem claim_C3 (cats : List Category) (cfg : PayCycleConfig) (pname : String)
    (daily : DailyMap) (now : Int) (ds : String)
    (hnd : (cats.map (fun c => c.id)).Nodup) :
    (liveBudgetOf cats cfg pname daily now ds).id = "live-cycle-budget" ∧
    (liveBudgetOf cats cfg pname daily now ds).totalIncome = cfg.income ∧
    (liveBudgetOf cats cfg pname daily now ds).categories =
      cats.map (fun c =>
        (c, if periodTotal daily (msOf (resolveCurrentPeriod cfg now).1)
              (msOf (resolveCurrentPeriod cfg now).2 - 1) c.id > 0
            then periodTotal daily (msOf (resolveCurrentPeriod cfg now).1)
              (msOf (resolveCurrentPeriod cfg now).2 - 1) c.id
            else 0)) := by
  refine ⟨rfl, rfl, ?_⟩
  unfold liveBudgetOf mkLiveBudget liveBudgetCategories currentPeriodSpending
  dsimp only
  rw [aggregate_eq cats hnd]
  apply List.map_congr_left
  intro cat hmem
  rw [find_in_mapped_filter cats
    (fun c => periodTotal daily (msOf (resolveCurrentPeriod cfg now).1)
      (msOf (resolveCurrentPeriod cfg now).2 - 1) c.id) cat hmem hnd]
  by_cases hg : periodTotal daily (msOf (resolveCurrentPeriod cfg now).1)
      (msOf (resolveCurrentPeriod cfg now).2 - 1) cat.id > 0
  · simp only [if_pos hg]
  · simp only [if_neg hg]

/-- Witness for C3 (amended): sentinel id and income stamping on a concrete
registry and config. -/
theorem claim_C3_witness :
    (([foodCat].map (fun c => c.id)).Nodup) ∧
    (liveBudgetOf [foodCat] ⟨⟨2024, 1, 1⟩, .mensual, 100⟩ "P" []
        (msOf ⟨2024, 1, 15⟩) "iso").id = "live-cycle-budget" ∧
    (liveBudgetOf [foodCat] ⟨⟨2024, 1, 1⟩, .mensual, 100⟩ "P" []
        (msOf ⟨2024, 1, 15⟩) "iso").totalIncome = 100 :=
  ⟨by decide,
   (claim_C3 [foodCat] ⟨⟨2024, 1, 1⟩, .mensual, 100⟩ "P" [] (msOf ⟨2024, 1, 15⟩) "iso"
     (by decide)).1,
   (claim_C3 [foodCat] ⟨⟨2024, 1, 1⟩, .mensual, 100⟩ "P" [] (msOf ⟨2024, 1, 15⟩) "iso"
     (by decide)).2.1⟩

/-- C2: whenever the registry contains a savings category, the synthesized
savings amount of a force-created budget equals
`max(0, income - totalAllocated)` where `totalAllocated` is the sum of the
(unchanged) non-savings category amounts, hence it is never negative; income
1000 with non-savings total 750 yields savings 250, and a non-savings total
of 1200 exceeding income 1000 yields savings 0. -/
theorem claim_C2 (cats : List Category) (m : DailyMap) (income : Int)
    (hs : ∃ c ∈ cats, c.id = "savings") :
    amountOf (forceCreateCategories cats m income) "savings" =
      max 0 (income - totalAllocatedOf (newCategoriesOf cats m)) ∧
    totalAllocatedOf (forceCreateCategories cats m income) =
      totalAllocatedOf (newCategoriesOf cats m) ∧
    0 ≤ amountOf (forceCreateCategories cats m income) "savings" ∧
    amountOf (forceCreateCategories [foodCat, savingsCat]
        [(⟨2024, 1, 5⟩, [⟨"e1", "", 750, "food"⟩])] 1000) "savings" = 250 ∧
    amountOf (forceCreateCategories [foodCat, savingsCat]
        [(⟨2024, 1, 5⟩, [⟨"e1", "", 1200, "food"⟩])] 1000) "savings" = 0 := by
  have hexists : ∃ p ∈ newCategoriesOf cats m, p.1.id = "savings" := by
    obtain ⟨c, hc, hcs⟩ := hs
    exact ⟨(c, getOr0 (categoryAmountsOf m) c.id), List.mem_map_of_mem _ hc, hcs⟩
  have h1 : amountOf (forceCreateCategories cats m income) "savings" =
      max 0 (income - totalAllocatedOf (newCategoriesOf cats m)) := by
    unfold forceCreateCategories
    exact overwriteSavings_amount _ _ hexists
  refine ⟨h1, ?_, ?_, by decide, by decide⟩
  · unfold forceCreateCategories totalAllocatedOf
    rw [overwriteSavings_filter]
  · rw [h1]
    exact le_max_left 0 _

/-- Witness for C2: savings nonnegativity on a concrete registry. -/
theorem claim_C2_witness :
    (∃ c ∈ [foodCat, savingsCat], c.id = "savings") ∧
    0 ≤ amountOf (forceCreateCategories [foodCat, savingsCat] [] 5) "savings" :=
  ⟨by decide, (claim_C2 [foodCat, savingsCat] [] 5 (by decide)).2.2.1⟩

/-- C8: after the orphan-cleanup pass, every key of both the daily-expense
mapping and the future-expense mapping is the id of an existing CycleProfile;
entries keyed by a deleted profile's id are removed from both mappings, and
the sub-collection of every surviving profile is left exactly unchanged. -/
theorem claim_C8 (s : AppState) :
    (∀ k ∈ (orphanCleanup s).allDailyExpenses.map (fun p => p.1),
        k ∈ s.cycleProfiles.map (fun p => p.id)) ∧
    (∀ k ∈ (orphanCleanup s).allFutureExpenses.map (fun p => p.1),
        k ∈ s.cycleProfiles.map (fun p => p.id)) ∧
    (∀ k, k ∈ s.cycleProfiles.map (fun p => p.id) →
        (orphanCleanup s).allDailyExpenses.find? (fun p => p.1 = k) =
          s.allDailyExpenses.find? (fun p => p.1 = k)) ∧
    (∀ k, k ∈ s.cycleProfiles.map (fun p => p.id) →
        (orphanCleanup s).allFutureExpenses.find? (fun p => p.1 = k) =
          s.allFutureExpenses.find? (fun p => p.1 = k)) ∧
    (∀ k, ¬ k ∈ s.cycleProfiles.map (fun p => p.id) →
        (orphanCleanup s).allDailyExpenses.find? (fun p => p.1 = k) = none) ∧
    (∀ k, ¬ k ∈ s.cycleProfiles.map (fun p => p.id) →
        (orphanCleanup s).allFutureExpenses.find? (fun p => p.1 = k) = none) := by
  have hd := cleanExpenses_spec (s.cycleProfiles.map (fun p => p.id)) s.allDailyExpenses
  have hf := cleanExpenses_spec (s.cycleProfiles.map (fun p => p.id)) s.allFutureExpenses
  exact ⟨hd.1, hf.1, hd.2.1, hf.2.1, hd.2.2, hf.2.2⟩

/-- Witness for C8: the orphaned key "b" is removed while the surviving
profile "a" keeps its sub-collection. -/
theorem claim_C8_witness :
    (¬ "b" ∈ exampleState.cycleProfiles.map (fun p => p.id)) ∧
    ("a" ∈ exampleState.cycleProfiles.map (fun p => p.id)) ∧
    (orphanCleanup exampleState).allDailyExpenses.find? (fun p => p.1 = "b") = none ∧
    (orphanCleanup exampleState).allDailyExpenses.find? (fun p => p.1 = "a") =
      exampleState.allDailyExpenses.find? (fun p => p.1 = "a") :=
  ⟨by decide, by decide,
   (claim_C8 exampleState).2.2.2.2.1 "b" (by decide),
   (claim_C8 exampleState).2.2.1 "a" (by decide)⟩

/-- C9: whenever there is no resolvable period (equivalently, no active cycle
config), budget synthesis does not occur: the live budget is absent, the
force-create action is rejected with the user-facing notice, and confirming a
force-create leaves the state (in particular the saved-budgets collection)
unchanged. -/
theorem claim_C9 (s : AppState) (now saveIdMs : Int) (todayStr isoStr ds : String)
    (cats : List Category) (h : periodOf s now = none) :
    activeCycleConfigOf s = none ∧
    currentCycleBudgetOf s now ds cats = none ∧
    handleForceCreateBudget s now =
      .notice "No hay un ciclo de pago activo configurado para crear un presupuesto." ∧
    handleConfirmForceCreate s now saveIdMs todayStr isoStr cats = s ∧
    (handleConfirmForceCreate s now saveIdMs todayStr isoStr cats).savedBudgets =
      s.savedBudgets := by
  have hprof : activeCycleProfileOf s = none := by
    cases hx : activeCycleProfileOf s with
    | none => rfl
    | some p =>
        exfalso
        unfold periodOf activeCycleConfigOf at h
        rw [hx] at h
        simp at h
  have hcfg : activeCycleConfigOf s = none := by
    unfold activeCycleConfigOf
    rw [hprof]
    rfl
  refine ⟨hcfg, ?_, ?_, ?_, ?_⟩
  · unfold currentCycleBudgetOf
    rw [hprof]
  · unfold handleForceCreateBudget
    rw [hcfg]
  · unfold handleConfirmForceCreate
    rw [hcfg]
  · unfold handleConfirmForceCreate
    rw [hcfg]

/-- Witness for C9 on the empty application state. -/
theorem claim_C9_witness :
    periodOf exampleEmptyState 0 = none ∧
    handleConfirmForceCreate exampleEmptyState 0 0 "t" "i" [foodCat] = exampleEmptyState :=
  ⟨by decide,
   (claim_C9 exampleEmptyState 0 0 "t" "i" "d" [foodCat] (by decide)).2.2.2.1⟩

/-- C10: confirming a force-create with an active config appends exactly one
new BudgetRecord (the synthesized one built from the merged
real-plus-materialized expense map) to the saved-budgets list and leaves the
stored daily-expense mapping, the future-expense mapping, the cycle profiles,
the active cycle id, the global savings and every previously saved budget
unchanged — the merge operates on fresh copies and never mutates its
inputs. -/
theorem claim_C10 (s : AppState) (now saveIdMs : Int) (todayStr isoStr : String)
    (cats : List Category) (cfg : PayCycleConfig)
    (h : activeCycleConfigOf s = some cfg) :
    handleConfirmForceCreate s now saveIdMs todayStr isoStr cats =
      { s with savedBudgets :=
          s.savedBudgets ++ [forceCreatedBudget s cfg now saveIdMs todayStr isoStr cats] } ∧
    (handleConfirmForceCreate s now saveIdMs todayStr isoStr cats).savedBudgets =
      s.savedBudgets ++ [forceCreatedBudget s cfg now saveIdMs todayStr isoStr cats] ∧
    (handleConfirmForceCreate s now saveIdMs todayStr isoStr cats).allDailyExpenses =
      s.allDailyExpenses ∧
    (handleConfirmForceCreate s now saveIdMs todayStr isoStr cats).allFutureExpenses =
      s.allFutureExpenses ∧
    (handleConfirmForceCreate s now saveIdMs todayStr isoStr cats).cycleProfiles =
      s.cycleProfiles ∧
    (handleConfirmForceCreate s now saveIdMs todayStr isoStr cats).activeCycleId =
      s.activeCycleId ∧
    (handleConfirmForceCreate s now saveIdMs todayStr isoStr cats).globalSavings =
      s.globalSavings ∧
    (∀ b ∈ s.savedBudgets,
      b ∈ (handleConfirmForceCreate s now saveIdMs todayStr isoStr cats).savedBudgets) := by
  have he : handleConfirmForceCreate s now saveIdMs todayStr isoStr cats =
      handleSaveNewBudget s (forceCreatedBudget s cfg now saveIdMs todayStr isoStr cats) := by
    unfold handleConfirmForceCreate
    rw [h]
  rw [he]
  unfold handleSaveNewBudget
  refine ⟨rfl, rfl, rfl, rfl, rfl, rfl, rfl, ?_⟩
  intro b hb
  dsimp only
  exact List.mem_append_left _ hb

/-- Witness for C10 on a state with one active profile. -/
theorem claim_C10_witness :
    activeCycleConfigOf exampleState = some exampleProfile.config ∧
    (handleConfirmForceCreate exampleState 0 1 "t" "i"
        [foodCat, savingsCat]).allDailyExpenses = exampleState.allDailyExpenses ∧
    (handleConfirmForceCreate exampleState 0 1 "t" "i"
        [foodCat, savingsCat]).cycleProfiles = exampleState.cycleProfiles :=
  ⟨by decide,
   (claim_C10 exampleState 0 1 "t" "i" [foodCat, savingsCat] exampleProfile.config
     (by decide)).2.2.1,
   (claim_C10 exampleState 0 1 "t" "i" [foodCat, savingsCat] exampleProfile.config
     (by decide)).2.2.2.2.1⟩
